import Mathlib

/-!
Verification of the schema-parsing and synthetic-data-generation core of the
repository (files `schema_parser.py`, `data_generator.py`, `data_analyzer.py`).

The Python code is shallowly embedded: pure string manipulation is translated
to executable functions over `List Char`, the regular expressions used by the
parser are translated to explicit scanners implementing the exact matching and
backtracking semantics of those patterns, and every source of randomness
(`random.randint`, `random.sample`, Faker draws) is an explicit oracle
argument whose contract (for `random.sample`: distinct in-range indices)
appears as a hypothesis of the theorems that need it.
-/

namespace GenSQL

/-! ### Character classes (Python `\s`, `\w`, `\d`, `str.strip`) -/

/-- Python whitespace characters (the ASCII part used by `str.strip` and
regex `\s`): space, tab, newline, carriage return, vertical tab, form feed. -/
def isPyWs (c : Char) : Bool :=
  c = ' ' ∨ c = '\t' ∨ c = '\n' ∨ c = '\r' ∨ c = Char.ofNat 11 ∨ c = Char.ofNat 12

/-- Regex `\w`: ASCII letters, digits and underscore. -/
def isWordChar (c : Char) : Bool :=
  c.isAlphanum ∨ c = '_'

/-- Regex `\d`. -/
def isDigitChar (c : Char) : Bool :=
  c.isDigit

/-- The backtick character, written by code point to keep it out of the
source text. -/
def btick : Char := Char.ofNat 96

/-- ASCII lower-casing of one character, as Python `str.lower` does on the
ASCII inputs handled here. -/
def lowerChar (c : Char) : Char := c.toLower

/-- ASCII upper-casing of one character, as Python `str.upper`. -/
def upperChar (c : Char) : Char := c.toUpper

def pyLower (s : List Char) : List Char := s.map lowerChar

def pyUpper (s : List Char) : List Char := s.map upperChar

/-- Python `str.strip()` on a list of characters. -/
def pyStrip (s : List Char) : List Char :=
  ((s.dropWhile (fun c => isPyWs c)).reverse.dropWhile (fun c => isPyWs c)).reverse

/-- Substring containment, Python `needle in hay`. -/
def strContains (hay needle : List Char) : Bool :=
  hay.tails.any (fun t => List.isPrefixOf needle t)

/-! ### Decimal rendering of naturals (Python `f-string` of an `int`)

Defined from scratch so that injectivity — needed to show that the
`_1`, `_2`, … collision suffixes of the string generator are pairwise
distinct — is provable. -/

def natDigitChar (d : Nat) : Char := Char.ofNat (48 + d)

/-- Digit list of `n`, most significant first; `fuel` bounds the recursion
and any `fuel > n` is sufficient. -/
def natDigitsAux : Nat → Nat → List Char
  | 0, _ => []
  | fuel + 1, n =>
    if n < 10 then [natDigitChar n]
    else natDigitsAux fuel (n / 10) ++ [natDigitChar (n % 10)]

/-- Decimal numeral of a natural number, e.g. `natRepr 12 = "12"`. -/
def natRepr (n : Nat) : String := ⟨natDigitsAux (n + 1) n⟩

theorem natDigitChar_inj : ∀ a < 10, ∀ b < 10,
    natDigitChar a = natDigitChar b → a = b := by decide

theorem natDigitsAux_ne_nil (fuel n : Nat) (h : n < fuel) :
    natDigitsAux fuel n ≠ [] := by
  cases fuel with
  | zero => omega
  | succ f =>
    unfold natDigitsAux
    split
    · simp
    · simp

theorem natDigitsAux_inj : ∀ (fuel₁ : Nat) (fuel₂ m n : Nat), m < fuel₁ → n < fuel₂ →
    natDigitsAux fuel₁ m = natDigitsAux fuel₂ n → m = n := by
  intro fuel₁
  induction fuel₁ using Nat.strong_induction_on with
  | _ fuel₁ ih =>
    intro fuel₂ m n hm hn heq
    cases fuel₁ with
    | zero => omega
    | succ f₁ =>
      cases fuel₂ with
      | zero => omega
      | succ f₂ =>
        by_cases h1 : m < 10 <;> by_cases h2 : n < 10
        · simp only [natDigitsAux, if_pos h1, if_pos h2, List.cons.injEq] at heq
          exact natDigitChar_inj m h1 n h2 heq.1
        · exfalso
          simp only [natDigitsAux, if_pos h1, if_neg h2] at heq
          have hne : natDigitsAux f₂ (n / 10) ≠ [] := by
            apply natDigitsAux_ne_nil
            have : n / 10 < n := Nat.div_lt_self (by omega) (by omega)
            omega
          have hlen := congrArg List.length heq
          simp only [List.length_append, List.length_cons, List.length_nil,
            List.length_singleton] at hlen
          cases hcs : natDigitsAux f₂ (n / 10) with
          | nil => exact hne hcs
          | cons a l => rw [hcs] at hlen; simp at hlen
        · exfalso
          simp only [natDigitsAux, if_neg h1, if_pos h2] at heq
          have hne : natDigitsAux f₁ (m / 10) ≠ [] := by
            apply natDigitsAux_ne_nil
            have : m / 10 < m := Nat.div_lt_self (by omega) (by omega)
            omega
          have hlen := congrArg List.length heq
          simp only [List.length_append, List.length_cons, List.length_nil,
            List.length_singleton] at hlen
          cases hcs : natDigitsAux f₁ (m / 10) with
          | nil => exact hne hcs
          | cons a l => rw [hcs] at hlen; simp at hlen
        · simp only [natDigitsAux, if_neg h1, if_neg h2] at heq
          have hmm : m / 10 < m := Nat.div_lt_self (by omega) (by omega)
          have hnn : n / 10 < n := Nat.div_lt_self (by omega) (by omega)
          have heads : natDigitsAux f₁ (m / 10) = natDigitsAux f₂ (n / 10) ∧
              natDigitChar (m % 10) = natDigitChar (n % 10) := by
            have := List.append_inj' heq (by simp)
            simpa using this
          have hdiv : m / 10 = n / 10 :=
            ih f₁ (by omega) f₂ (m / 10) (n / 10) (by omega) (by omega) heads.1
          have hmod : m % 10 = n % 10 :=
            natDigitChar_inj (m % 10) (Nat.mod_lt _ (by omega)) (n % 10)
              (Nat.mod_lt _ (by omega)) heads.2
          omega

theorem natRepr_inj : Function.Injective natRepr := by
  intro m n h
  have : natDigitsAux (m + 1) m = natDigitsAux (n + 1) n := congrArg String.data h
  exact natDigitsAux_inj (m + 1) (n + 1) m n (by omega) (by omega) this

/-! ### Python `str.splitlines` and SQL comment removal
(`SchemaParser._remove_comments`) -/

/-- Python `str.splitlines()` restricted to the line terminators occurring in
SQL text: `\n`, `\r\n`, `\r`.  The empty string yields no lines, and a
trailing terminator does not produce a trailing empty line. -/
def splitlinesAux : List Char → List Char → List (List Char)
  | acc, [] => if acc = [] then [] else [acc.reverse]
  | acc, '\r' :: '\n' :: rest => acc.reverse :: splitlinesAux [] rest
  | acc, '\n' :: rest => acc.reverse :: splitlinesAux [] rest
  | acc, '\r' :: rest => acc.reverse :: splitlinesAux [] rest
  | acc, c :: rest => splitlinesAux (c :: acc) rest

def pySplitlines (s : List Char) : List (List Char) := splitlinesAux [] s

/-- `"\n".join`, used for `"\n".join(lines[1:])`. -/
def joinNewline : List (List Char) → List Char
  | [] => []
  | [l] => l
  | l :: rest => l ++ '\n' :: joinNewline rest

/-- Suffix strictly after the first occurrence of `c`, if any. -/
def findAfterChar (c : Char) : List Char → Option (List Char)
  | [] => none
  | x :: xs => if x = c then some xs else findAfterChar c xs

/-- `re.sub(r"--.*?\n", "\n", content)`: each `--` up to and including the
next newline collapses to a single newline; a trailing `--` comment without a
newline is left in place (the regex requires the `\n`).  `fuel ≥ length` of
the input makes the scan total. -/
def stripDashComments : Nat → List Char → List Char
  | _, [] => []
  | 0, s => s
  | fuel + 1, c :: rest =>
    if c = '-' then
      match rest with
      | '-' :: rest2 =>
        match findAfterChar '\n' rest2 with
        | some after => '\n' :: stripDashComments fuel after
        | none => c :: rest
      | _ => c :: stripDashComments fuel rest
    else c :: stripDashComments fuel rest

/-- `re.sub(r"#.*?\n", "\n", content)`. -/
def stripHashComments : Nat → List Char → List Char
  | _, [] => []
  | 0, s => s
  | fuel + 1, c :: rest =>
    if c = '#' then
      match findAfterChar '\n' rest with
      | some after => '\n' :: stripHashComments fuel after
      | none => c :: rest
    else c :: stripHashComments fuel rest

/-- Suffix strictly after the first `*/`, if any. -/
def findAfterBlockEnd : List Char → Option (List Char)
  | [] => none
  | '*' :: '/' :: rest => some rest
  | _ :: rest => findAfterBlockEnd rest

/-- `re.sub(r"/\*.*?\*/", "", content, flags=re.DOTALL)`: each `/*` up to the
next `*/` is deleted; an unterminated `/*` is left in place. -/
def stripBlockComments : Nat → List Char → List Char
  | _, [] => []
  | 0, s => s
  | fuel + 1, c :: rest =>
    if c = '/' then
      match rest with
      | '*' :: rest2 =>
        match findAfterBlockEnd rest2 with
        | some after => stripBlockComments fuel after
        | none => c :: rest
      | _ => c :: stripBlockComments fuel rest
    else c :: stripBlockComments fuel rest

/-- `SchemaParser._remove_comments`: the three `re.sub` passes (`--`, `#`,
`/* ... */`) in source order, followed by `str.strip()`. -/
def remove_comments (content : List Char) : List Char :=
  let c1 := stripDashComments content.length content
  let c2 := stripHashComments c1.length c1
  let c3 := stripBlockComments c2.length c2
  pyStrip c3

/-! ### Dialect detection (first-line handling of `SchemaParser.parse_schema`) -/

/-- The character class of the dialect-cleaning regex: dash, slash, hash,
star or whitespace. -/
def isDialectJunk (c : Char) : Bool :=
  c = '-' ∨ c = '/' ∨ c = '#' ∨ c = '*' ∨ isPyWs c

/-- The dialect-cleaning substitution of `parse_schema` (an `re.sub` whose
pattern is an anchored-prefix alternative and an anchored-suffix alternative):
remove the maximal prefix of comment-marker/whitespace characters, then, from
the remaining text, the maximal suffix consisting of whitespace followed by
star or slash characters — exactly the two places where that regex can
match. -/
def cleanDialectLine (line : List Char) : List Char :=
  let afterLead := line.dropWhile (fun c => isDialectJunk c)
  let revTail := afterLead.reverse.dropWhile (fun c => c = '*' ∨ c = '/')
  let revTail2 := revTail.dropWhile (fun c => isPyWs c)
  revTail2.reverse

/-- `SchemaParser.KNOWN_DIALECTS`. -/
def KNOWN_DIALECTS : List String :=
  ["MySQL", "PostgreSQL", "SQLite", "MS SQL Server", "Oracle", "MariaDB"]

/-! ### The column pattern of `SchemaParser`

The pattern anchors at the fragment start, skips whitespace, captures an
optionally backticked identifier (group 1), requires whitespace, then
captures a greedy run of word/whitespace characters with an optional
size-parameter parenthesis of digits, commas and whitespace (group 2); the
trailing constraint text (group 3) always matches and is unused.  The
functions below implement the exact match, including the one backtracking
step in which `\s+` yields its final character to the greedy group 2 when no
word character follows the whitespace. -/

/-- The optional size parameter: an opening parenthesis, a run of digits,
commas and whitespace, and a closing parenthesis. -/
def tryTypeParen (s : List Char) : Option (List Char) :=
  match s with
  | '(' :: rest =>
    let inner := rest.takeWhile (fun c => isDigitChar c ∨ c = ',' ∨ isPyWs c)
    match rest.drop inner.length with
    | ')' :: _ => some ('(' :: (inner ++ [')']))
    | _ => none
  | _ => none

/-- Match of `SchemaParser.column_pattern` against a column fragment,
returning groups 1 (name) and 2 (raw type), or `none` when the fragment does
not match. -/
def colMatch (s : List Char) : Option (List Char × List Char) :=
  let s1 := s.dropWhile (fun c => isPyWs c)
  let s2 := match s1 with
            | c :: rest => if c = btick then rest else s1
            | [] => s1
  let name := s2.takeWhile (fun c => isWordChar c)
  if name = [] then none
  else
    let s3 := s2.drop name.length
    let s4 := match s3 with
              | c :: rest => if c = btick then rest else s3
              | [] => s3
    let ws := s4.takeWhile (fun c => isPyWs c)
    if ws = [] then none
    else
      let s5 := s4.drop ws.length
      let run := s5.takeWhile (fun c => isWordChar c ∨ isPyWs c)
      if run ≠ [] then
        let paren := (tryTypeParen (s5.drop run.length)).getD []
        some (name, run ++ paren)
      else if 2 ≤ ws.length then
        let paren := (tryTypeParen s5).getD []
        some (name, ws.getLastD ' ' :: paren)
      else none

/-- The type-normalisation chain of `SchemaParser._parse_columns`: substring
tests on the lower-cased raw type, in source order. -/
def normalizeColType (rawTypeFull : List Char) : String :=
  let d := pyLower rawTypeFull
  if strContains d "int".data then "integer"
  else if strContains d "char".data ∨ strContains d "text".data then "string"
  else if strContains d "float".data ∨ strContains d "double".data ∨
      strContains d "real".data then "float"
  else if strContains d "decimal".data ∨ strContains d "numeric".data then "float"
  else if d = "date".data ∨ (List.isPrefixOf "date".data d ∧ ¬ d.contains '(') then "date"
  else if strContains d "datetime".data ∨ strContains d "timestamp".data then "datetime"
  else if strContains d "bool".data then "boolean"
  else "string"

/-- Values stored in a column's `params` map (generation hints). -/
inductive PyParam where
  | i : Int → PyParam
  | b : Bool → PyParam
  | q : ℚ → PyParam
  | s : String → PyParam
deriving DecidableEq

/-- A parsed column: the dictionary appended by
`SchemaParser._parse_columns`. -/
structure ColumnDef where
  name : String
  type : String
  raw_type : String
  params : List (String × PyParam)
  constraints : List String
deriving DecidableEq

/-- The constraint keywords whose fragments `_parse_columns` skips. -/
def CONSTRAINT_KEYWORDS : List (List Char) :=
  ["PRIMARY KEY".data, "FOREIGN KEY".data, "UNIQUE".data, "CONSTRAINT".data,
   "CHECK".data, "INDEX".data, "KEY".data, "TABLESPACE".data]

def startsWithConstraintKw (frag : List Char) : Bool :=
  CONSTRAINT_KEYWORDS.any (fun kw => List.isPrefixOf kw (pyUpper frag))

/-- The character-by-character comma split of `_parse_columns`: parenthesis
depth is tracked and only top-level commas split; every comma emits the
stripped buffer (possibly empty), the final buffer only when non-empty after
stripping. -/
def splitColsGo : List Char → List Char → Int → List (List Char)
  | [], buffer, _ =>
    if pyStrip buffer.reverse = [] then [] else [pyStrip buffer.reverse]
  | ch :: rest, buffer, level =>
    let level2 := if ch = '(' then level + 1 else if ch = ')' then level - 1 else level
    if ch = ',' ∧ level2 = 0 then pyStrip buffer.reverse :: splitColsGo rest [] level2
    else splitColsGo rest (ch :: buffer) level2

def stripBticks (s : List Char) : List Char :=
  ((s.dropWhile (fun c => c = btick)).reverse.dropWhile (fun c => c = btick)).reverse

/-- `SchemaParser._parse_columns`. -/
def parse_columns (columnsText : List Char) : List ColumnDef :=
  let noComments := remove_comments columnsText
  let defs := splitColsGo noComments [] 0
  defs.filterMap (fun fragRaw =>
    let frag := pyStrip fragRaw
    if frag = [] ∨ startsWithConstraintKw frag then none
    else
      match colMatch frag with
      | some (nameChars, group2) =>
        let rawType := pyStrip group2
        some { name := ⟨stripBticks nameChars⟩, type := normalizeColType rawType,
               raw_type := ⟨rawType⟩, params := [], constraints := [] }
      | none => none)

/-! ### The table pattern of `SchemaParser`

`CREATE TABLE`, an optional `IF NOT EXISTS`, an optional schema qualifier,
the table name, and a non-greedy parenthesised body terminated by a closing
parenthesis, optional whitespace and a semicolon.  The identifier section has
genuine backtracking (both word groups can shrink); `idCandidates`
enumerates its alternatives in the engine's preference order and the first
one whose continuation succeeds wins. -/

/-- Case-insensitive literal match (the literal is given lower-case),
returning the rest of the input. -/
def matchCI : List Char → List Char → Option (List Char)
  | [], s => some s
  | _ :: _, [] => none
  | l :: ls, c :: cs => if lowerChar c = l then matchCI ls cs else none

/-- `\s+`: at least one whitespace character, consumed greedily (every token
following a `\s+` in the table pattern begins with a non-whitespace
character, so the greedy match never needs to backtrack). -/
def wsPlus (s : List Char) : Option (List Char) :=
  match s with
  | c :: _ => if isPyWs c then some (s.dropWhile (fun c2 => isPyWs c2)) else none
  | [] => none

/-- The optional `IF\s+NOT\s+EXISTS\s+` group: `some` with the rest when the
whole group matches. -/
def tryIfNotExists (s : List Char) : Option (List Char) :=
  (matchCI "if".data s).bind fun s1 =>
    (wsPlus s1).bind fun s2 =>
      (matchCI "not".data s2).bind fun s3 =>
        (wsPlus s3).bind fun s4 =>
          (matchCI "exists".data s4).bind fun s5 =>
            (wsPlus s5).map fun s6 => s6

/-- Non-greedy body: the shortest prefix followed by a closing parenthesis,
optional whitespace and a semicolon.  Returns the body and the rest after the
semicolon. -/
def bodyScan : List Char → List Char → Option (List Char × List Char)
  | [], _ => none
  | ')' :: rest, acc =>
    match rest.dropWhile (fun c => isPyWs c) with
    | ';' :: r3 => some (acc.reverse, r3)
    | _ => bodyScan rest (')' :: acc)
  | c :: rest, acc => bodyScan rest (c :: acc)

/-- The continuation after the identifier section: `\s*`, `(`, body, `)`,
`\s*`, `;`. -/
def contTest (s : List Char) : Option (List Char × List Char) :=
  match s.dropWhile (fun c => isPyWs c) with
  | '(' :: rest => bodyScan rest []
  | _ => none

/-- Alternatives of an optional backtick, preferred consumed. -/
def tickOpts (s : List Char) : List (List Char) :=
  match s with
  | c :: rest => if c = btick then [rest, s] else [s]
  | [] => [s]

/-- Alternatives of the optional dot after the schema qualifier. -/
def dotOpts (s : List Char) : List (List Char) :=
  match s with
  | c :: rest => if c = '.' then [rest, s] else [s]
  | [] => [s]

/-- Alternatives of a greedy `(\w+)`: the captured run, longest first, with
the corresponding rest. -/
def wordRuns (s : List Char) : List (List Char × List Char) :=
  let r := s.takeWhile (fun c => isWordChar c)
  (List.range r.length).map (fun d =>
    let len := r.length - d
    (r.take len, s.drop len))

/-- The identifier-section alternatives `(group1, group2, rest)` in the
regex engine's backtracking order: first with the optional schema-qualifier
group taken (its own choices nested), then with it empty. -/
def idCandidates (s : List Char) : List (List Char × List Char × List Char) :=
  let outer := fun (g1 : List Char) (t : List Char) =>
    (tickOpts t).flatMap (fun s5 =>
      (wordRuns s5).flatMap (fun p =>
        (tickOpts p.2).map (fun s7 => (g1, p.1, s7))))
  ((tickOpts s).flatMap (fun s1 =>
    (wordRuns s1).flatMap (fun p =>
      (tickOpts p.2).flatMap (fun s3 =>
        (dotOpts s3).flatMap (fun s4 => outer p.1 s4)))))
  ++ outer [] s

/-- One match attempt of `SchemaParser.table_pattern` at the start of `s`:
the three groups (schema qualifier, table name, body) and the rest of the
input after the match. -/
def matchTableAt (s : List Char) :
    Option ((List Char × List Char × List Char) × List Char) :=
  (matchCI "create".data s).bind fun s1 =>
    (wsPlus s1).bind fun s2 =>
      (matchCI "table".data s2).bind fun s3 =>
        (wsPlus s3).bind fun s4 =>
          let attempt := fun (t : List Char) =>
            (idCandidates t).findSome? (fun c =>
              (contTest c.2.2).map (fun br => ((c.1, c.2.1, br.1), br.2)))
          match tryIfNotExists s4 with
          | some s5 =>
            match attempt s5 with
            | some r => some r
            | none => attempt s4
          | none => attempt s4

/-- `findall` of the table pattern: scan left to right, resuming after each
match (matches never overlap).  `fuel ≥ length` of the input makes the scan
total. -/
def findTables : Nat → List Char → List (List Char × List Char × List Char)
  | 0, _ => []
  | _, [] => []
  | fuel + 1, s@(_ :: rest) =>
    match matchTableAt s with
    | some (groups, after) => groups :: findTables fuel after
    | none => findTables fuel rest

/-! ### `SchemaParser.parse_schema` -/

/-- Python `dict` assignment on an association list: replace in place if the
key exists, otherwise append. -/
def dictSet {α : Type} : List (String × α) → String → α → List (String × α)
  | [], k, v => [(k, v)]
  | (k2, v2) :: rest, k, v =>
    if k2 = k then (k, v) :: rest else (k2, v2) :: dictSet rest k v

structure ParseResult where
  tables : List (String × List ColumnDef)
  dialect : Option String
deriving DecidableEq

/-- Table-name assembly: strip, lower-case and backtick-remove the name, and
prepend the schema qualifier (same processing) joined by a dot when the
qualifier group is non-empty. -/
def mkTableName (g1 g2 : List Char) : String :=
  let tname := (pyLower (pyStrip g2)).filter (fun c => ¬ c = btick)
  if g1 = [] then ⟨tname⟩
  else ⟨((pyLower (pyStrip g1)).filter (fun c => ¬ c = btick)) ++ '.' :: tname⟩

/-- The table-building loop of `parse_schema`: for each table-pattern match,
parse the columns of the body and record the table under its assembled name
only when at least one column was parsed (`if columns:`). -/
def assembleTables (ms : List (List Char × List Char × List Char)) :
    List (String × List ColumnDef) :=
  ms.foldl (fun acc m =>
    let cols := parse_columns m.2.2
    if cols = [] then acc else dictSet acc (mkTableName m.1 m.2.1) cols) []

/-- The first-line handling of `parse_schema`: when the cleaned first line
equals a known dialect (case-insensitively), that dialect and the remaining
lines re-joined; otherwise no dialect and the whole input. -/
def dialectAndContent (schemaContent : String) : Option String × List Char :=
  match pySplitlines schemaContent.data with
  | [] => (none, schemaContent.data)
  | l0 :: restLines =>
    let cleaned := cleanDialectLine (pyStrip l0)
    match KNOWN_DIALECTS.find? (fun d2 => pyLower cleaned = pyLower (String.data d2)) with
    | some d2 => (some d2, joinNewline restLines)
    | none => (none, schemaContent.data)

/-- `SchemaParser.parse_schema`: dialect detection on the (cleaned) first
line, comment removal, table-pattern scan, and per-table column parsing; a
table is recorded only when at least one column was parsed. -/
def parse_schema (schemaContent : String) : ParseResult :=
  let dc := dialectAndContent schemaContent
  let noComments := remove_comments dc.2
  ⟨assembleTables (findTables noComments.length noComments), dc.1⟩

/-! ### `DataGenerator` — schema-driven generation

Randomness is modelled by oracles: `random.randint` draws and Faker string
draws are functions `Nat → _` giving the i-th draw of the call, and each
`random.sample(population, k)` result is a list of indices into the
population whose contract (pairwise distinct, in range, length `k`) appears
as a hypothesis where a theorem needs it. -/

/-- `params.get(key)`. -/
def pGet (params : List (String × PyParam)) (k : String) : Option PyParam :=
  (params.find? (fun kv => kv.1 = k)).map (fun kv => kv.2)

/-- `params.get(key, default)` for an integer-valued hint. -/
def pGetI (params : List (String × PyParam)) (k : String) (d : Int) : Int :=
  match pGet params k with
  | some (PyParam.i v) => v
  | _ => d

/-- `params.get(key, default)` for a boolean-valued hint. -/
def pGetB (params : List (String × PyParam)) (k : String) (d : Bool) : Bool :=
  match pGet params k with
  | some (PyParam.b v) => v
  | _ => d

/-- `params.get(key, default)` for a rational-valued hint. -/
def pGetQ (params : List (String × PyParam)) (k : String) (d : ℚ) : ℚ :=
  match pGet params k with
  | some (PyParam.q v) => v
  | _ => d

/-- The shared nullable-overwrite step of every `_generate_*` method:
`for idx in null_indices: values[idx] = None`, applied after value
generation.  `nullIndices` is the `random.sample(range(num_samples),
null_count)` oracle. -/
def applyNulls {α : Type} (vals : List (Option α)) (nullIndices : List Nat) :
    List (Option α) :=
  nullIndices.foldl (fun acc i => acc.set i none) vals

/-- Python `list(range(start, start + n))` over machine-unbounded ints. -/
def intRange (start : Int) (n : Nat) : List Int :=
  (List.range n).map (fun k => start + Int.ofNat k)

/-- The range-widening step of the unique branch of
`DataGenerator._generate_integers`: `if max - min + 1 < num_samples:
max = min + num_samples`. -/
def widen_max (minVal maxVal : Int) (numSamples : Nat) : Int :=
  if maxVal - minVal + 1 < (numSamples : Int) then minVal + (numSamples : Int) else maxVal

/-- `DataGenerator._generate_integers`.  `randint i` is the i-th
`random.randint(min, max)` draw; `samplePick` are the indices chosen by
`random.sample(range(min, max + 1), num_samples)` in the unique branch
(value `min + i` for index `i`); `nullPick` the null-position sample.
Returns the value list and the updated `unique_counters`. -/
def generate_integers (numSamples : Nat) (params : List (String × PyParam))
    (uniqueCounters : List (String × Int)) (colName : String)
    (randint : Nat → Int) (samplePick : List Nat) (nullPick : List Nat) :
    List (Option Int) × List (String × Int) :=
  let minVal := pGetI params "min_value" 1
  let nullable := pGetB params "nullable" false
  let unique := pGetB params "unique" false
  let autoIncrement := pGetB params "auto_increment" false
  let valuesAndCounters :=
    if autoIncrement then
      let startVal := ((uniqueCounters.find? (fun kv => kv.1 = colName)).map
        (fun kv => kv.2)).getD 1
      (intRange startVal numSamples,
       dictSet uniqueCounters colName (startVal + (numSamples : Int)))
    else if unique then
      let maxVal := widen_max minVal (pGetI params "max_value" 100000) numSamples
      let population := intRange minVal (maxVal + 1 - minVal).toNat
      (samplePick.map (fun i => population.getD i 0), uniqueCounters)
    else
      ((List.range numSamples).map randint, uniqueCounters)
  let vals := valuesAndCounters.1.map some
  (if nullable then applyNulls vals nullPick else vals, valuesAndCounters.2)

/-- `DataGenerator._generate_floats`.  The `random.uniform(min, max)` draws
are the oracle `draws`; `roundFn` is Python `round(value, scale)`, applied
only when the `precision` hint is present and truthy. -/
def generate_floats (numSamples : Nat) (params : List (String × PyParam))
    (draws : Nat → ℚ) (roundFn : ℚ → Int → ℚ) (nullPick : List Nat) :
    List (Option ℚ) :=
  let scale := pGetI params "scale" 2
  let nullable := pGetB params "nullable" false
  let values := (List.range numSamples).map (fun i =>
    match pGet params "precision" with
    | some (PyParam.i p) => if p ≠ 0 then roundFn (draws i) scale else draws i
    | _ => draws i)
  let vals := values.map some
  if nullable then applyNulls vals nullPick else vals

/-- Python `value[:k]` for a non-negative `k`. -/
def pyTake (v : String) (k : Nat) : String := ⟨v.data.take k⟩

/-- The truncation step of `_generate_strings`: `if len(value) > max_length:
value = value[:max_length]` (with the non-negative `max_length` values used
by the repository). -/
def truncVal (maxLength : Int) (v : String) : String :=
  if (v.length : Int) > maxLength then pyTake v maxLength.toNat else v

/-- The collision-suffix candidate `f"{original}_{counter}"`. -/
def cands (original : String) (k : Nat) : String :=
  original ++ "_" ++ natRepr k

/-- The `while value in used_values` loop of `_generate_strings`: starting
from the raw draw and `counter = 1`, try `original_1`, `original_2`, … until
a value outside `used` is found.  `fuel = used.length + 1` is always
sufficient (the candidates are pairwise distinct), so the fallback branch is
unreachable. -/
def disambig : Nat → String → String → Nat → List String → String
  | 0, _, value, _, _ => value
  | fuel + 1, original, value, counter, used =>
    if value ∈ used then disambig fuel original (cands original counter) (counter + 1) used
    else value

/-- The per-draw loop body of `_generate_strings` over the list of raw
draws: disambiguate (when unique) against the `used_values` set, record the
disambiguated value, then truncate. -/
def stringsGo (unique : Bool) (maxLength : Int) :
    List String → List String → List String
  | _, [] => []
  | used, raw :: rest =>
    if unique then
      let v := disambig (used.length + 1) raw raw 1 used
      truncVal maxLength v :: stringsGo unique maxLength (v :: used) rest
    else
      truncVal maxLength raw :: stringsGo unique maxLength used rest

/-- The pre-truncation (disambiguated) value sequence of the unique branch —
the specification-side companion of `stringsGo` used to state what
uniqueness the loop actually establishes. -/
def disambigSeq (used : List String) : List String → List String
  | [] => []
  | raw :: rest =>
    let v := disambig (used.length + 1) raw raw 1 used
    v :: disambigSeq (v :: used) rest

/-- `DataGenerator._generate_strings`.  `raws i` is the i-th raw draw
(either the chosen Faker method's output or the random
`min_length ≤ len ≤ min(max_length, 50)` alphanumeric string — both external
randomness, absorbed into the oracle). -/
def generate_strings (numSamples : Nat) (params : List (String × PyParam))
    (colName : String) (raws : Nat → String) (nullPick : List Nat) :
    List (Option String) :=
  let maxLength := pGetI params "max_length" 255
  let nullable := pGetB params "nullable" false
  let unique := pGetB params "unique" false
  let values := stringsGo unique maxLength [] ((List.range numSamples).map raws)
  let vals := values.map some
  if nullable then applyNulls vals nullPick else vals

/-- `DataGenerator._generate_dates`: the `fake.date_between` draws (dates as
day ordinals) are the oracle; only the nullable overwrite is logic. -/
def generate_dates (numSamples : Nat) (params : List (String × PyParam))
    (draws : Nat → Int) (nullPick : List Nat) : List (Option Int) :=
  let nullable := pGetB params "nullable" false
  let vals := ((List.range numSamples).map draws).map some
  if nullable then applyNulls vals nullPick else vals

/-- `DataGenerator._generate_datetimes`: as `generate_dates`, with
`fake.date_time_between` draws (timestamps). -/
def generate_datetimes (numSamples : Nat) (params : List (String × PyParam))
    (draws : Nat → Int) (nullPick : List Nat) : List (Option Int) :=
  let nullable := pGetB params "nullable" false
  let vals := ((List.range numSamples).map draws).map some
  if nullable then applyNulls vals nullPick else vals

/-- `DataGenerator._generate_booleans`: `value = random.random() <
true_prob`, the `random.random()` draws being the oracle `uni`. -/
def generate_booleans (numSamples : Nat) (params : List (String × PyParam))
    (uni : Nat → ℚ) (nullPick : List Nat) : List (Option Bool) :=
  let trueProb := pGetQ params "true_probability" (1 / 2)
  let nullable := pGetB params "nullable" false
  let vals := ((List.range numSamples).map (fun i => decide (uni i < trueProb))).map some
  if nullable then applyNulls vals nullPick else vals

/-- A generated cell value (the column lists of the returned `DataFrame`
hold one of these kinds per column type). -/
inductive PyV where
  | i : Int → PyV
  | q : ℚ → PyV
  | s : String → PyV
  | b : Bool → PyV
  | d : Int → PyV
  | dt : Int → PyV
deriving DecidableEq

/-- The randomness oracle of one column's generation within one
`generate_from_schema` call. -/
structure ColEntropy where
  randint : Nat → Int
  samplePick : List Nat
  nullPick : List Nat
  raws : Nat → String
  floatDraws : Nat → ℚ
  roundFn : ℚ → Int → ℚ
  dateDraws : Nat → Int
  datetimeDraws : Nat → Int
  uniformDraws : Nat → ℚ

/-- The per-column loop of `DataGenerator.generate_from_schema`: dispatch on
the canonical type (unknown types default to the string generator), thread
the `unique_counters` map, and assign the generated list into the data
dictionary. -/
def gfsGo (numSamples : Nat) (ent : Nat → ColEntropy) :
    List ColumnDef → Nat → List (String × Int) → List (String × List (Option PyV)) →
    List (String × List (Option PyV))
  | [], _, _, data => data
  | col :: rest, idx, counters, data =>
    let e := ent idx
    let valsAndCounters :=
      if col.type = "integer" then
        let r := generate_integers numSamples col.params counters col.name
          e.randint e.samplePick e.nullPick
        (r.1.map (Option.map PyV.i), r.2)
      else if col.type = "float" then
        ((generate_floats numSamples col.params e.floatDraws e.roundFn
          e.nullPick).map (Option.map PyV.q), counters)
      else if col.type = "string" then
        ((generate_strings numSamples col.params col.name e.raws
          e.nullPick).map (Option.map PyV.s), counters)
      else if col.type = "date" then
        ((generate_dates numSamples col.params e.dateDraws
          e.nullPick).map (Option.map PyV.d), counters)
      else if col.type = "datetime" then
        ((generate_datetimes numSamples col.params e.datetimeDraws
          e.nullPick).map (Option.map PyV.dt), counters)
      else if col.type = "boolean" then
        ((generate_booleans numSamples col.params e.uniformDraws
          e.nullPick).map (Option.map PyV.b), counters)
      else
        ((generate_strings numSamples col.params col.name e.raws
          e.nullPick).map (Option.map PyV.s), counters)
    gfsGo numSamples ent rest (idx + 1) valsAndCounters.2
      (dictSet data col.name valsAndCounters.1)

/-- `DataGenerator.generate_from_schema`.  The `unique_counters` map is
created empty at the start of every call (the generator instance itself
holds no cross-call counter state; only the seeded random streams — here the
oracle `ent` — persist on the instance). -/
def generate_from_schema (columns : List ColumnDef) (numSamples : Nat)
    (ent : Nat → ColEntropy) : List (String × List (Option PyV)) :=
  gfsGo numSamples ent columns 0 [] []

/-! ### `DataAnalyzer` — file dispatch and distribution classification -/

/-- Python `str.split(sep)` for a one-character separator: every occurrence
splits, adjacent separators yield empty pieces, and the result is always
non-empty (`"".split(sep) == [""]`). -/
def splitChar (sep : Char) : List Char → List (List Char)
  | [] => [[]]
  | c :: rest =>
    let r := splitChar sep rest
    if c = sep then [] :: r
    else
      match r with
      | [] => [[c]]
      | y :: ys => (c :: y) :: ys

/-- Python `'.' + filename.split('.')[-1].lower()`
(`DataAnalyzer._get_file_extension`). -/
def get_file_extension (filename : String) : String :=
  let parts := splitChar '.' filename.data
  ⟨'.' :: pyLower (parts.getLastD [])⟩

/-- `DataAnalyzer.analyze_file`: dispatch on the computed extension.  The
actual reading and per-column profiling of the uploaded bytes is collaborator
work on in-memory data; its results for the two supported branches are the
abstract arguments `csvAnalysis` and `excelAnalysis`, so that only the
dispatch-and-raise logic is modelled.  The unsupported branch raises
`ValueError`, modelled as `Except.error`. -/
def analyze_file {α : Type} (filename : String) (csvAnalysis excelAnalysis : α) :
    Except String α :=
  let ext := get_file_extension filename
  if ext = ".csv" then Except.ok csvAnalysis
  else if ext = ".xlsx" ∨ ext = ".xls" then Except.ok excelAnalysis
  else Except.error ("Unsupported file type: " ++ ext)

/-- The numeric-series quantities read inside the `try` block of
`DataAnalyzer._get_distribution_info` (skewness, kurtosis, min, max, std),
as exact numbers. -/
structure SeriesStats where
  skew : ℚ
  kurt : ℚ
  min : ℚ
  max : ℚ
  std : ℚ
deriving DecidableEq

/-- The distribution record returned by `_get_distribution_info`. -/
structure DistributionInfo where
  skewness : Option ℚ
  kurtosis : Option ℚ
  type : String
deriving DecidableEq

/-- `DataAnalyzer._get_distribution_info`: default `normal`, overridden to
`skewed` when the absolute skewness exceeds 1, else to `uniform` when the
minimum is non-negative and the range-to-std ratio is below 2; any exception
inside the computation degrades to a bare `unknown` record.  The possibility
of the statistics computation raising is the `Except`-valued input. -/
def get_distribution_info (stcalc : Except String SeriesStats) : DistributionInfo :=
  match stcalc with
  | Except.error _ => { skewness := none, kurtosis := none, type := "unknown" }
  | Except.ok st =>
    let distributionType :=
      if |st.skew| > 1 then "skewed"
      else if st.min ≥ 0 ∧ (st.max - st.min) / st.std < 2 then "uniform"
      else "normal"
    { skewness := some st.skew, kurtosis := some st.kurt, type := distributionType }

/-! ## Supporting lemmas -/

theorem applyNulls_cons {α : Type} (vals : List (Option α)) (i : Nat) (rest : List Nat) :
    applyNulls vals (i :: rest) = applyNulls (vals.set i none) rest := rfl

theorem applyNulls_length {α : Type} (idxs : List Nat) (vals : List (Option α)) :
    (applyNulls vals idxs).length = vals.length := by
  induction idxs generalizing vals with
  | nil => rfl
  | cons i rest ih => rw [applyNulls_cons, ih, List.length_set]

theorem countP_set_none {α : Type} (a : α) :
    ∀ (vals : List (Option α)) (i : Nat), vals[i]? = some (some a) →
    (vals.set i none).countP (fun v => v.isNone) =
      vals.countP (fun v => v.isNone) + 1 := by
  intro vals
  induction vals with
  | nil => intro i h; simp at h
  | cons v rest ih =>
    intro i h
    cases i with
    | zero =>
      simp only [List.getElem?_cons_zero, Option.some.injEq] at h
      subst h
      simp [List.countP_cons]
    | succ i =>
      simp only [List.getElem?_cons_succ] at h
      simp only [List.set_cons_succ, List.countP_cons]
      rw [ih i h]
      omega

theorem applyNulls_countP {α : Type} (idxs : List Nat) (vals : List (Option α))
    (hnd : idxs.Nodup)
    (hin : ∀ i ∈ idxs, ∃ a, vals[i]? = some (some a)) :
    (applyNulls vals idxs).countP (fun v => v.isNone) =
      vals.countP (fun v => v.isNone) + idxs.length := by
  induction idxs generalizing vals with
  | nil => simp [applyNulls]
  | cons i rest ih =>
    obtain ⟨a, ha⟩ := hin i (by simp)
    rw [applyNulls_cons, ih (vals.set i none) (List.Nodup.of_cons hnd) ?_]
    · rw [countP_set_none a vals i ha]
      simp
      omega
    · intro j hj
      obtain ⟨b, hb⟩ := hin j (List.mem_cons_of_mem _ hj)
      refine ⟨b, ?_⟩
      have hne : i ≠ j := by
        rintro rfl
        exact (List.nodup_cons.mp hnd).1 hj
      rw [List.getElem?_set_ne hne]
      exact hb

/-- Specialisation shared by every generator's nullable path: overwriting 50
distinct in-range positions of 1000 generated (non-null) values with the
null marker yields exactly 1000 values of which exactly 50 are null. -/
theorem mapSome_applyNulls_spec {α : Type} (values : List α) (nullPick : List Nat)
    (hv : values.length = 1000) (hlen : nullPick.length = 50)
    (hnd : nullPick.Nodup) (hran : ∀ i ∈ nullPick, i < 1000) :
    (applyNulls (values.map some) nullPick).length = 1000 ∧
    (applyNulls (values.map some) nullPick).countP (fun v => v.isNone) = 50 := by
  constructor
  · rw [applyNulls_length, List.length_map, hv]
  · rw [applyNulls_countP nullPick (values.map some) hnd ?_]
    · rw [List.countP_eq_zero.mpr ?_, hlen]
      intro v hv2
      obtain ⟨b, _, rfl⟩ := List.mem_map.mp hv2
      simp
    · intro i hi
      have hilt : i < values.length := by rw [hv]; exact hran i hi
      refine ⟨values[i], ?_⟩
      rw [List.getElem?_map, List.getElem?_eq_getElem hilt]
      rfl

theorem stringsGo_length (unique : Bool) (maxLength : Int) (raws : List String) :
    ∀ used : List String,
    (stringsGo unique maxLength used raws).length = raws.length := by
  induction raws with
  | nil => intro used; rfl
  | cons r rest ih =>
    intro used
    unfold stringsGo
    split
    · simp only [List.length_cons, ih]
    · simp only [List.length_cons, ih]

/-! ## Claim C5 -/

set_option maxRecDepth 8000 in
/-- C5: with `nullable` set and `num_samples = 1000`, each of the six
generators returns exactly 1000 values of which exactly `int(1000 * 0.05) =
50` are null — the null positions being a without-replacement sample
(`hnd`, `hran`) overwritten after value generation. -/
theorem c5_nullable_exact_null_count
    (colName : String) (randint : Nat → Int) (raws : Nat → String)
    (fd : Nat → ℚ) (rf : ℚ → Int → ℚ) (dd dtd : Nat → Int) (uni : Nat → ℚ)
    (nullPick : List Nat) (hlen : nullPick.length = 50) (hnd : nullPick.Nodup)
    (hran : ∀ i ∈ nullPick, i < 1000) :
    ((generate_integers 1000 [("nullable", PyParam.b true)] [] colName randint []
        nullPick).1.length = 1000 ∧
      (generate_integers 1000 [("nullable", PyParam.b true)] [] colName randint []
        nullPick).1.countP (fun v => v.isNone) = 50) ∧
    ((generate_floats 1000 [("nullable", PyParam.b true)] fd rf nullPick).length = 1000 ∧
      (generate_floats 1000 [("nullable", PyParam.b true)] fd rf nullPick).countP
        (fun v => v.isNone) = 50) ∧
    ((generate_strings 1000 [("nullable", PyParam.b true)] colName raws
        nullPick).length = 1000 ∧
      (generate_strings 1000 [("nullable", PyParam.b true)] colName raws
        nullPick).countP (fun v => v.isNone) = 50) ∧
    ((generate_dates 1000 [("nullable", PyParam.b true)] dd nullPick).length = 1000 ∧
      (generate_dates 1000 [("nullable", PyParam.b true)] dd nullPick).countP
        (fun v => v.isNone) = 50) ∧
    ((generate_datetimes 1000 [("nullable", PyParam.b true)] dtd nullPick).length = 1000 ∧
      (generate_datetimes 1000 [("nullable", PyParam.b true)] dtd nullPick).countP
        (fun v => v.isNone) = 50) ∧
    ((generate_booleans 1000 [("nullable", PyParam.b true)] uni nullPick).length = 1000 ∧
      (generate_booleans 1000 [("nullable", PyParam.b true)] uni nullPick).countP
        (fun v => v.isNone) = 50) := by
  refine ⟨?_, ?_, ?_, ?_, ?_, ?_⟩
  · rw [show generate_integers 1000 [("nullable", PyParam.b true)] [] colName randint
        [] nullPick
        = (applyNulls (((List.range 1000).map randint).map some) nullPick, []) from rfl]
    exact mapSome_applyNulls_spec _ nullPick (by simp) hlen hnd hran
  · rw [show generate_floats 1000 [("nullable", PyParam.b true)] fd rf nullPick
        = applyNulls (((List.range 1000).map fd).map some) nullPick from rfl]
    exact mapSome_applyNulls_spec _ nullPick (by simp) hlen hnd hran
  · rw [show generate_strings 1000 [("nullable", PyParam.b true)] colName raws nullPick
        = applyNulls ((stringsGo false 255 []
            ((List.range 1000).map raws)).map some) nullPick from rfl]
    exact mapSome_applyNulls_spec _ nullPick
      (by rw [stringsGo_length]; simp) hlen hnd hran
  · rw [show generate_dates 1000 [("nullable", PyParam.b true)] dd nullPick
        = applyNulls (((List.range 1000).map dd).map some) nullPick from rfl]
    exact mapSome_applyNulls_spec _ nullPick (by simp) hlen hnd hran
  · rw [show generate_datetimes 1000 [("nullable", PyParam.b true)] dtd nullPick
        = applyNulls (((List.range 1000).map dtd).map some) nullPick from rfl]
    exact mapSome_applyNulls_spec _ nullPick (by simp) hlen hnd hran
  · rw [show generate_booleans 1000 [("nullable", PyParam.b true)] uni nullPick
        = applyNulls (((List.range 1000).map
            (fun i => decide (uni i < 1 / 2))).map some) nullPick from rfl]
    exact mapSome_applyNulls_spec _ nullPick (by simp) hlen hnd hran

/-- Witness for C5 at a concrete null-position sample. -/
theorem c5_nullable_exact_null_count_witness :
    (generate_integers 1000 [("nullable", PyParam.b true)] [] "c" (fun _ => 7) []
      (List.range 50)).1.length = 1000 ∧
    (generate_integers 1000 [("nullable", PyParam.b true)] [] "c" (fun _ => 7) []
      (List.range 50)).1.countP (fun v => v.isNone) = 50 :=
  (c5_nullable_exact_null_count "c" (fun _ => 7) (fun _ => "") (fun _ => 0)
    (fun _ _ => 0) (fun _ => 0) (fun _ => 0) (fun _ => 0) (List.range 50)
    (by simp) (List.nodup_range 50) (by
      intro i hi
      have := List.mem_range.mp hi
      omega)).1

/-! ## Claim C6 -/

theorem intRange_getD (start : Int) (n i : Nat) (h : i < n) :
    (intRange start n).getD i 0 = start + i := by
  unfold intRange
  have hlen : i < ((List.range n).map (fun k => start + Int.ofNat k)).length := by
    simpa using h
  rw [List.getD_eq_getElem?_getD, List.getElem?_eq_getElem hlen, Option.getD_some,
    List.getElem_map, List.getElem_range]
  rfl

/-- C6: requesting 50 unique (non-auto-increment) integers with
`min_value = 1`, `max_value = 10` widens the range to 51 values — at least
`num_samples`, so the `random.sample` precondition holds and no error is
raised — and, the sample indices being pairwise distinct (`hnd`) and within
the widened population (`hran`), all 50 returned values are pairwise
distinct. -/
theorem c6_unique_widened_sample (colName : String) (randint : Nat → Int)
    (samplePick : List Nat) (hnd : samplePick.Nodup) (hlen : samplePick.length = 50)
    (hran : ∀ i ∈ samplePick, i < 51) :
    (50 : Int) ≤ widen_max 1 10 50 + 1 - 1 ∧
    (generate_integers 50 [("unique", PyParam.b true), ("min_value", PyParam.i 1),
      ("max_value", PyParam.i 10)] [] colName randint samplePick []).1.length = 50 ∧
    (generate_integers 50 [("unique", PyParam.b true), ("min_value", PyParam.i 1),
      ("max_value", PyParam.i 10)] [] colName randint samplePick []).1.Nodup := by
  have heq : (generate_integers 50 [("unique", PyParam.b true), ("min_value", PyParam.i 1),
      ("max_value", PyParam.i 10)] [] colName randint samplePick []).1
      = (samplePick.map (fun i => (intRange 1 51).getD i 0)).map some := rfl
  refine ⟨by decide, ?_, ?_⟩
  · rw [heq]
    simp [hlen]
  · rw [heq]
    refine List.Nodup.map (Option.some_injective _) ?_
    refine List.Nodup.map_on ?_ hnd
    intro x hx y hy hxy
    rw [intRange_getD 1 51 x (hran x hx), intRange_getD 1 51 y (hran y hy)] at hxy
    omega

/-- Witness for C6 at the concrete sample `0, …, 49` of the widened
population. -/
theorem c6_unique_widened_sample_witness :
    (50 : Int) ≤ widen_max 1 10 50 + 1 - 1 ∧
    (generate_integers 50 [("unique", PyParam.b true), ("min_value", PyParam.i 1),
      ("max_value", PyParam.i 10)] [] "id" (fun _ => 0) (List.range 50) []).1.length = 50 ∧
    (generate_integers 50 [("unique", PyParam.b true), ("min_value", PyParam.i 1),
      ("max_value", PyParam.i 10)] [] "id" (fun _ => 0) (List.range 50) []).1.Nodup :=
  c6_unique_widened_sample "id" (fun _ => 0) (List.range 50) (List.nodup_range 50)
    (by simp) (by
      intro i hi
      have := List.mem_range.mp hi
      omega)

/-! ## Claim C2 -/

/-- The auto-increment integer column of claim C2 (`params` from the claim:
`auto_increment` set, nothing else). -/
def autoIdCol : ColumnDef :=
  { name := "id", type := "integer", raw_type := "INT",
    params := [("auto_increment", PyParam.b true)], constraints := [] }

/-- An arbitrary concrete randomness oracle (the auto-increment branch never
consults it). -/
def trivialEntropy : ColEntropy :=
  { randint := fun _ => 0, samplePick := [], nullPick := [], raws := fun _ => "",
    floatDraws := fun _ => 0, roundFn := fun _ _ => 0, dateDraws := fun _ => 0,
    datetimeDraws := fun _ => 0, uniformDraws := fun _ => 0 }

set_option maxRecDepth 8000 in
/-- C2 (amended): for an `auto_increment` integer column,
`generate_from_schema` with `num_samples = 100` yields `1..100` in order on
the first call — and on every further call on the same generator instance,
whatever the state of the instance's random streams (`ent`, `ent2`), because
the `unique_counters` map is re-created empty at the start of each call and
the instance keeps no counter between calls; the second call therefore
restarts at 1 instead of continuing from 101. -/
theorem c2_auto_increment_restarts (ent ent2 : Nat → ColEntropy) :
    generate_from_schema [autoIdCol] 100 ent =
      [("id", (intRange 1 100).map (fun v => some (PyV.i v)))] ∧
    generate_from_schema [autoIdCol] 100 ent2 =
      [("id", (intRange 1 100).map (fun v => some (PyV.i v)))] := by
  constructor
  · rfl
  · rfl

set_option maxRecDepth 8000 in
/-- C2 counterexample: two successive `generate_from_schema` calls on the
same generator instance both return `1..100`; the second call does not
return `101..200`, refuting the claimed continuation. -/
theorem c2_counterexample :
    generate_from_schema [autoIdCol] 100 (fun _ => trivialEntropy) =
      [("id", (intRange 1 100).map (fun v => some (PyV.i v)))] ∧
    ¬ (generate_from_schema [autoIdCol] 100 (fun _ => trivialEntropy) =
      [("id", (intRange 101 100).map (fun v => some (PyV.i v)))]) := by
  refine ⟨rfl, ?_⟩
  rw [show generate_from_schema [autoIdCol] 100 (fun _ => trivialEntropy) =
      [("id", (intRange 1 100).map (fun v => some (PyV.i v)))] from rfl]
  decide

/-- Witness for C2 (amended) at a concrete entropy state for each call. -/
theorem c2_auto_increment_restarts_witness :
    generate_from_schema [autoIdCol] 100 (fun _ => trivialEntropy) =
      [("id", (intRange 1 100).map (fun v => some (PyV.i v)))] ∧
    generate_from_schema [autoIdCol] 100 (fun _ => trivialEntropy) =
      [("id", (intRange 1 100).map (fun v => some (PyV.i v)))] :=
  c2_auto_increment_restarts (fun _ => trivialEntropy) (fun _ => trivialEntropy)

/-! ## Claim C9 -/

/-- `Except.error`-ness, to state raising versus returning. -/
def exceptIsError {ε α : Type} : Except ε α → Bool
  | Except.error _ => true
  | Except.ok _ => false

/-- C9: `analyze_file` raises if and only if the computed extension of the
uploaded file's name is outside the supported set `.csv`, `.xlsx`, `.xls`;
an unsupported extension is a hard `ValueError` surfaced to the caller, not
a degraded result. -/
theorem c9_analyze_file_raises_iff {α : Type} (filename : String)
    (csvAnalysis excelAnalysis : α) :
    exceptIsError (analyze_file filename csvAnalysis excelAnalysis) = true ↔
      get_file_extension filename ∉ [".csv", ".xlsx", ".xls"] := by
  unfold analyze_file
  by_cases h1 : get_file_extension filename = ".csv"
  · simp [h1, exceptIsError]
  · by_cases h2 : get_file_extension filename = ".xlsx" ∨
        get_file_extension filename = ".xls"
    · simp only [if_neg h1, if_pos h2, exceptIsError]
      simp only [List.mem_cons, List.mem_singleton, List.not_mem_nil]
      tauto
    · simp only [if_neg h1, if_neg h2, exceptIsError]
      simp only [List.mem_cons, List.mem_singleton, List.not_mem_nil]
      tauto

/-- Witness for C9: a `.txt` upload raises, a `.csv` upload does not. -/
theorem c9_analyze_file_raises_iff_witness :
    (exceptIsError (analyze_file "data.txt" 0 0) = true ↔
      get_file_extension "data.txt" ∉ [".csv", ".xlsx", ".xls"]) ∧
    (exceptIsError (analyze_file "data.csv" 0 0) = true ↔
      get_file_extension "data.csv" ∉ [".csv", ".xlsx", ".xls"]) :=
  ⟨c9_analyze_file_raises_iff "data.txt" 0 0, c9_analyze_file_raises_iff "data.csv" 0 0⟩

/-! ## Claim C10 -/

/-- C10: for a (non-degenerate, `0 < std`) numeric column the distribution
classification is `skewed` exactly when the absolute skewness exceeds 1,
otherwise `uniform` exactly when the minimum is non-negative and the
range-to-std ratio is below 2, otherwise `normal`; and when the statistics
computation raises, the result degrades to type `unknown` instead of
propagating the error. -/
theorem c10_distribution_classification (st : SeriesStats) (hstd : 0 < st.std) :
    ((get_distribution_info (Except.ok st)).type = "skewed" ↔ |st.skew| > 1) ∧
    ((get_distribution_info (Except.ok st)).type = "uniform" ↔
      ¬ (|st.skew| > 1) ∧ (st.min ≥ 0 ∧ (st.max - st.min) / st.std < 2)) ∧
    ((get_distribution_info (Except.ok st)).type = "normal" ↔
      ¬ (|st.skew| > 1) ∧ ¬ (st.min ≥ 0 ∧ (st.max - st.min) / st.std < 2)) ∧
    (∀ msg : String, (get_distribution_info (Except.error msg)).type = "unknown") := by
  unfold get_distribution_info
  by_cases h1 : |st.skew| > 1
  · simp [h1]
  · by_cases h2 : st.min ≥ 0 ∧ (st.max - st.min) / st.std < 2
    · simp [h1, h2]
    · simp [h1, h2]

/-- Witness for C10 at a concrete series-statistics record and a concrete
exception message. -/
theorem c10_distribution_classification_witness :
    ((get_distribution_info (Except.ok ⟨2, 0, 0, 10, 1⟩)).type = "skewed" ↔
      |(2 : ℚ)| > 1) ∧
    ((get_distribution_info (Except.ok ⟨2, 0, 0, 10, 1⟩)).type = "uniform" ↔
      ¬ (|(2 : ℚ)| > 1) ∧ ((0 : ℚ) ≥ 0 ∧ ((10 : ℚ) - 0) / 1 < 2)) ∧
    ((get_distribution_info (Except.ok ⟨2, 0, 0, 10, 1⟩)).type = "normal" ↔
      ¬ (|(2 : ℚ)| > 1) ∧ ¬ ((0 : ℚ) ≥ 0 ∧ ((10 : ℚ) - 0) / 1 < 2)) ∧
    (get_distribution_info (Except.error "single value")).type = "unknown" :=
  have h := c10_distribution_classification ⟨2, 0, 0, 10, 1⟩ (by norm_num)
  ⟨h.1, h.2.1, h.2.2.1, h.2.2.2 "single value"⟩

/-! ## Claim C1 -/

set_option maxRecDepth 4000 in
/-- C1 counterexample: in a parsed `CREATE TABLE` body, the raw type
`DATETIME` is normalised to canonical type `date`, not `datetime` — the
date branch (prefix match on `date` with no parenthesis) precedes the
datetime branch in the normalisation chain. -/
theorem c1_counterexample :
    (parse_schema "CREATE TABLE t (e DATETIME);").tables =
      [("t", [{ name := "e", type := "date", raw_type := "DATETIME",
                params := [], constraints := [] }])] ∧
    ({ name := "e", type := "date", raw_type := "DATETIME",
       params := [], constraints := [] } : ColumnDef).type ≠ "datetime" := by
  refine ⟨by decide, by decide⟩

set_option maxRecDepth 4000 in
/-- C1 (amended): for the raw SQL types of a parsed `CREATE TABLE` body the
canonical types are `INT ↦ integer`, `VARCHAR(255) ↦ string`,
`DECIMAL(10,2) ↦ float`, `DATE ↦ date`, `DATETIME ↦ date` (the prefix-`date`
branch fires first), `BOOLEAN ↦ boolean`, `TEXT ↦ string`. -/
theorem c1_amended_type_normalization :
    (parse_schema ("CREATE TABLE t (a INT, b VARCHAR(255), c DECIMAL(10,2), " ++
        "d DATE, e DATETIME, f BOOLEAN, g TEXT);")).tables =
      [("t",
        [{ name := "a", type := "integer", raw_type := "INT",
           params := [], constraints := [] },
         { name := "b", type := "string", raw_type := "VARCHAR(255)",
           params := [], constraints := [] },
         { name := "c", type := "float", raw_type := "DECIMAL(10,2)",
           params := [], constraints := [] },
         { name := "d", type := "date", raw_type := "DATE",
           params := [], constraints := [] },
         { name := "e", type := "date", raw_type := "DATETIME",
           params := [], constraints := [] },
         { name := "f", type := "boolean", raw_type := "BOOLEAN",
           params := [], constraints := [] },
         { name := "g", type := "string", raw_type := "TEXT",
           params := [], constraints := [] }])] := by
  decide

/-! ## Claim C7 -/

set_option maxRecDepth 4000 in
/-- C7: parsing `"PostgreSQL\nCREATE TABLE t (id INT);"` detects the
`PostgreSQL` dialect and parses table `t` with the single integer column
`id` from the remaining lines; the same input without the dialect line
yields no dialect and the identical table structure from the full text. -/
theorem c7_dialect_detection :
    parse_schema "PostgreSQL\nCREATE TABLE t (id INT);" =
      { tables := [("t", [{ name := "id", type := "integer", raw_type := "INT",
                            params := [], constraints := [] }])],
        dialect := some "PostgreSQL" } ∧
    parse_schema "CREATE TABLE t (id INT);" =
      { tables := [("t", [{ name := "id", type := "integer", raw_type := "INT",
                            params := [], constraints := [] }])],
        dialect := none } := by
  refine ⟨by decide, by decide⟩

/-! ## Claims C8 and C4 -/

theorem dictSet_mem {α : Type} (k : String) (v : α) (e : String × α) :
    ∀ d : List (String × α), e ∈ dictSet d k v → e = (k, v) ∨ e ∈ d := by
  intro d
  induction d with
  | nil =>
    intro h
    simp only [dictSet, List.mem_singleton] at h
    exact Or.inl h
  | cons kv rest ih =>
    intro h
    rw [show dictSet (kv :: rest) k v =
        (if kv.1 = k then (k, v) :: rest else kv :: dictSet rest k v) from by
      cases kv; rfl] at h
    by_cases hk : kv.1 = k
    · rw [if_pos hk] at h
      rcases List.mem_cons.mp h with h1 | h1
      · exact Or.inl h1
      · exact Or.inr (List.mem_cons_of_mem _ h1)
    · rw [if_neg hk] at h
      rcases List.mem_cons.mp h with h1 | h1
      · exact Or.inr (h1 ▸ List.mem_cons_self _ _)
      · rcases ih h1 with h2 | h2
        · exact Or.inl h2
        · exact Or.inr (List.mem_cons_of_mem _ h2)

/-- Every entry of the table-assembly fold satisfies any predicate that
holds of each recorded `(name, parsed columns)` pair with non-empty
columns. -/
theorem assembleTables_mem (P : String × List ColumnDef → Prop)
    (hstep : ∀ m : List Char × List Char × List Char,
      parse_columns m.2.2 ≠ [] → P (mkTableName m.1 m.2.1, parse_columns m.2.2)) :
    ∀ (ms : List (List Char × List Char × List Char)), ∀ e ∈ assembleTables ms, P e := by
  suffices hgen : ∀ (ms : List (List Char × List Char × List Char))
      (acc : List (String × List ColumnDef)), (∀ e ∈ acc, P e) →
      ∀ e ∈ ms.foldl (fun acc m =>
        let cols := parse_columns m.2.2
        if cols = [] then acc else dictSet acc (mkTableName m.1 m.2.1) cols) acc, P e by
    intro ms e he
    exact hgen ms [] (by simp) e he
  intro ms
  induction ms with
  | nil => intro acc hacc e he; exact hacc e he
  | cons m rest ih =>
    intro acc hacc e he
    rw [List.foldl_cons] at he
    refine ih _ ?_ e he
    intro e2 he2
    dsimp only at he2
    by_cases hc : parse_columns m.2.2 = []
    · rw [if_pos hc] at he2
      exact hacc e2 he2
    · rw [if_neg hc] at he2
      rcases dictSet_mem _ _ _ _ he2 with h1 | h1
      · exact h1 ▸ hstep m hc
      · exact hacc e2 h1

/-- C8: every table recorded by `parse_schema` maps to a non-empty column
list — a `CREATE TABLE` block from which zero columns were parsed is not
added. -/
theorem c8_tables_nonempty (text : String) (entry : String × List ColumnDef)
    (h : entry ∈ (parse_schema text).tables) : entry.2 ≠ [] := by
  refine assembleTables_mem (fun e => e.2 ≠ []) ?_ _ entry h
  intro m hm
  exact hm

set_option maxRecDepth 4000 in
/-- Witness for C8: the parse of a concrete schema contains table `t`, whose
column list is non-empty. -/
theorem c8_tables_nonempty_witness :
    ("t", [({ name := "id", type := "integer", raw_type := "INT",
              params := [], constraints := [] } : ColumnDef)]) ∈
      (parse_schema "CREATE TABLE t (id INT);").tables ∧
    (("t", [({ name := "id", type := "integer", raw_type := "INT",
               params := [], constraints := [] } : ColumnDef)]) :
      String × List ColumnDef).2 ≠ [] :=
  ⟨by decide, c8_tables_nonempty "CREATE TABLE t (id INT);" _ (by decide)⟩

theorem parse_columns_fields (body : List Char) (c : ColumnDef)
    (h : c ∈ parse_columns body) : c.params = [] ∧ c.constraints = [] := by
  unfold parse_columns at h
  rw [List.mem_filterMap] at h
  obtain ⟨frag, _, hsome⟩ := h
  dsimp only at hsome
  split at hsome
  · exact Option.noConfusion hsome
  · split at hsome
    · rename_i name group2 heq2
      have := Option.some.inj hsome
      subst this
      exact ⟨rfl, rfl⟩
    · exact Option.noConfusion hsome

/-- C4: every `ColumnDefinition` produced by `parse_schema` has an empty
`params` map and an empty `constraints` list, whatever SQL constraints were
written; consequently, feeding such a column's params to the integer
generator takes the default path — non-nullable, non-unique,
non-auto-increment uniform draws, counters untouched. -/
theorem c4_parser_emits_empty_params (text : String)
    (entry : String × List ColumnDef) (hEntry : entry ∈ (parse_schema text).tables)
    (c : ColumnDef) (hCol : c ∈ entry.2) :
    c.params = [] ∧ c.constraints = [] ∧
    ∀ (n : Nat) (counters : List (String × Int)) (colName : String)
      (randint : Nat → Int) (sp np : List Nat),
      generate_integers n c.params counters colName randint sp np =
        (((List.range n).map randint).map some, counters) := by
  have hfields : c.params = [] ∧ c.constraints = [] := by
    refine assembleTables_mem
      (fun e => ∀ c2 ∈ e.2, c2.params = [] ∧ c2.constraints = []) ?_ _ entry hEntry c hCol
    intro m hm c2 hc2
    exact parse_columns_fields m.2.2 c2 hc2
  refine ⟨hfields.1, hfields.2, ?_⟩
  intro n counters colName randint sp np
  rw [hfields.1]
  rfl

set_option maxRecDepth 4000 in
/-- Witness for C4 at a concrete schema, table entry and column. -/
theorem c4_parser_emits_empty_params_witness :
    ({ name := "id", type := "integer", raw_type := "INT",
       params := [], constraints := [] } : ColumnDef).params = [] ∧
    ({ name := "id", type := "integer", raw_type := "INT",
       params := [], constraints := [] } : ColumnDef).constraints = [] ∧
    generate_integers 3
      ({ name := "id", type := "integer", raw_type := "INT",
         params := [], constraints := [] } : ColumnDef).params [] "id"
      (fun _ => (5 : Int)) [] [] =
      (((List.range 3).map (fun _ => (5 : Int))).map some, []) :=
  have h := c4_parser_emits_empty_params "CREATE TABLE t (id INT);"
    ("t", [{ name := "id", type := "integer", raw_type := "INT",
             params := [], constraints := [] }]) (by decide)
    { name := "id", type := "integer", raw_type := "INT",
      params := [], constraints := [] } (by decide)
  ⟨h.1, h.2.1, h.2.2 3 [] "id" (fun _ => (5 : Int)) [] []⟩

/-! ## Claim C3 -/

theorem natRepr_length_pos (k : Nat) : 0 < (natRepr k).length := by
  have hne : natDigitsAux (k + 1) k ≠ [] := natDigitsAux_ne_nil (k + 1) k (by omega)
  show 0 < (natDigitsAux (k + 1) k).length
  cases h : natDigitsAux (k + 1) k with
  | nil => exact absurd h hne
  | cons a l => simp

/-- The collision suffixes are pairwise distinct for distinct counters. -/
theorem cands_inj (original : String) (k j : Nat)
    (h : cands original k = cands original j) : k = j := by
  apply natRepr_inj
  apply String.ext
  have hd0 := congrArg String.data h
  simp only [cands, String.data_append, List.append_assoc] at hd0
  exact List.append_cancel_left (List.append_cancel_left hd0)

/-- A raw value never equals one of its own suffix candidates. -/
theorem cands_ne_original (original : String) (k : Nat) :
    original ≠ cands original k := by
  intro h
  have hlen := congrArg String.length h
  simp only [cands, String.length_append] at hlen
  have h1 := natRepr_length_pos k
  have h2 : ("_" : String).length = 1 := rfl
  omega

/-- Sufficient fuel makes the collision loop return a value outside `used`:
if the (pairwise-distinct) candidates examined within the fuel window
contain fewer members of `used` than the fuel allows, the first free
candidate is reached. -/
theorem disambig_spec (used : List String) (original : String) :
    ∀ (F : Nat) (value : String) (c : Nat),
    (value :: (List.range' c (F - 1)).map (cands original)).Nodup →
    (value :: (List.range' c (F - 1)).map (cands original)).countP
      (fun x => decide (x ∈ used)) < F →
    disambig F original value c used ∉ used := by
  intro F
  induction F with
  | zero =>
    intro value c _ hcnt
    omega
  | succ F ih =>
    intro value c hnd hcnt
    unfold disambig
    split
    case isTrue hmem =>
      cases F with
      | zero =>
        exfalso
        simp only [Nat.succ_sub_one, List.range'_zero, List.map_nil,
          List.countP_cons, List.countP_nil] at hcnt
        simp [hmem] at hcnt
      | succ F2 =>
        have hrw : List.range' c (F2 + 1 + 1 - 1) = c :: List.range' (c + 1) F2 := rfl
        rw [hrw, List.map_cons] at hnd hcnt
        refine ih (cands original c) (c + 1) ?_ ?_
        · exact List.Nodup.of_cons hnd
        · have : (value :: cands original c ::
              (List.range' (c + 1) F2).map (cands original)).countP
                (fun x => decide (x ∈ used)) =
              (cands original c ::
              (List.range' (c + 1) F2).map (cands original)).countP
                (fun x => decide (x ∈ used)) + 1 := by
            rw [List.countP_cons]
            simp [hmem]
          rw [this] at hcnt
          have hrw2 : List.range' (c + 1) (F2 + 1 - 1) = List.range' (c + 1) F2 := rfl
          rw [hrw2]
          omega
    case isFalse hmem => exact hmem

/-- With its actual fuel `used.length + 1`, the collision loop always
returns a value not in `used`. -/
theorem disambig_not_mem (used : List String) (raw : String) :
    disambig (used.length + 1) raw raw 1 used ∉ used := by
  have hW : (raw :: (List.range' 1 (used.length + 1 - 1)).map (cands raw)).Nodup := by
    rw [List.nodup_cons]
    constructor
    · intro hmem
      rw [List.mem_map] at hmem
      obtain ⟨k, _, hk⟩ := hmem
      exact cands_ne_original raw k hk.symm
    · refine List.Nodup.map_on ?_ (List.nodup_range' 1 (used.length + 1 - 1) 1 (by norm_num))
      intro x _ y _ hxy
      exact cands_inj raw x y hxy
  refine disambig_spec used raw (used.length + 1) raw 1 hW ?_
  set W := raw :: (List.range' 1 (used.length + 1 - 1)).map (cands raw) with hWdef
  have hfil : (W.filter (fun x => decide (x ∈ used))).Nodup :=
    List.Nodup.filter _ hW
  have hsub : ∀ x ∈ W.filter (fun x => decide (x ∈ used)), x ∈ used := by
    intro x hx
    have := List.of_mem_filter hx
    simpa using this
  have hcard : (W.filter (fun x => decide (x ∈ used))).length ≤ used.length := by
    have h1 := List.toFinset_card_of_nodup hfil
    have h2 : (W.filter (fun x => decide (x ∈ used))).toFinset ⊆ used.toFinset := by
      intro x hx
      rw [List.mem_toFinset] at hx ⊢
      exact hsub x hx
    have h3 := Finset.card_le_card h2
    have h4 := List.toFinset_card_le used
    omega
  rw [List.countP_eq_length_filter]
  omega

theorem disambigSeq_cons (used : List String) (raw : String) (rest : List String) :
    disambigSeq used (raw :: rest) =
      disambig (used.length + 1) raw raw 1 used ::
        disambigSeq (disambig (used.length + 1) raw raw 1 used :: used) rest := rfl

/-- The disambiguated sequence is pairwise distinct and disjoint from the
initial `used` set. -/
theorem disambigSeq_nodup (raws : List String) :
    ∀ used : List String, (disambigSeq used raws).Nodup ∧
      ∀ v ∈ disambigSeq used raws, v ∉ used := by
  induction raws with
  | nil => intro used; exact ⟨List.nodup_nil, by simp [disambigSeq]⟩
  | cons raw rest ih =>
    intro used
    rw [disambigSeq_cons]
    obtain ⟨ihnd, ihmem⟩ := ih (disambig (used.length + 1) raw raw 1 used :: used)
    have hvnot : disambig (used.length + 1) raw raw 1 used ∉ used :=
      disambig_not_mem used raw
    constructor
    · rw [List.nodup_cons]
      refine ⟨fun hmem => ?_, ihnd⟩
      exact (ihmem _ hmem) (List.mem_cons_self _ _)
    · intro x hx
      rcases List.mem_cons.mp hx with h1 | h1
      · exact h1 ▸ hvnot
      · intro hxu
        exact (ihmem x h1) (List.mem_cons_of_mem _ hxu)

/-- In the unique branch, the produced values are exactly the disambiguated
sequence, truncated value-wise. -/
theorem stringsGo_true_eq (maxLength : Int) (raws : List String) :
    ∀ used, stringsGo true maxLength used raws =
      (disambigSeq used raws).map (truncVal maxLength) := by
  induction raws with
  | nil => intro used; rfl
  | cons raw rest ih =>
    intro used
    rw [disambigSeq_cons, List.map_cons, ← ih]
    rfl

theorem truncVal_length_le (L : Int) (v : String) (hL : 0 ≤ L) :
    ((truncVal L v).length : Int) ≤ L := by
  unfold truncVal
  split
  case isTrue h =>
    show ((pyTake v L.toNat).length : Int) ≤ L
    have h1 : (pyTake v L.toNat).length = min L.toNat v.data.length := by
      show (v.data.take L.toNat).length = _
      exact List.length_take L.toNat v.data
    rw [h1]
    have := Int.toNat_of_nonneg hL
    omega
  case isFalse h =>
    omega

theorem truncVal_of_le (L : Int) (v : String) (h : (v.length : Int) ≤ L) :
    truncVal L v = v := by
  unfold truncVal
  rw [if_neg (by omega)]

/-- C3 (amended): for a unique string column with a `max_length` parameter,
(a) every returned value has length at most `max_length`, and (b) the
returned values are pairwise distinct provided no disambiguated value
exceeds `max_length` (so that the truncation applied after the `_1`, `_2`, …
suffixing leaves every value unchanged); when truncation does fire it can
merge previously distinct values, so distinctness holds only under (b)'s
proviso. -/
theorem c3_amended_unique_strings (n : Nat) (L : Int) (raws : Nat → String)
    (colName : String) :
    ((0 : Int) ≤ L → ∀ s : String,
      some s ∈ generate_strings n [("unique", PyParam.b true), ("max_length", PyParam.i L)]
        colName raws [] → (s.length : Int) ≤ L) ∧
    ((∀ v ∈ disambigSeq [] ((List.range n).map raws), (v.length : Int) ≤ L) →
      (generate_strings n [("unique", PyParam.b true), ("max_length", PyParam.i L)]
        colName raws []).Nodup) := by
  have hout : generate_strings n [("unique", PyParam.b true), ("max_length", PyParam.i L)]
      colName raws [] = (stringsGo true L [] ((List.range n).map raws)).map some := rfl
  rw [hout, stringsGo_true_eq]
  constructor
  · intro hL s hs
    rw [List.mem_map] at hs
    obtain ⟨t, ht, hts⟩ := hs
    have := Option.some.inj hts
    subst this
    rw [List.mem_map] at ht
    obtain ⟨v, _, rfl⟩ := ht
    exact truncVal_length_le L v hL
  · intro hfit
    refine List.Nodup.map (Option.some_injective _) ?_
    have hid : (disambigSeq [] ((List.range n).map raws)).map (truncVal L)
        = disambigSeq [] ((List.range n).map raws) := by
      rw [List.map_congr_left (fun v hv => truncVal_of_le L v (hfit v hv)),
        List.map_id']
    rw [hid]
    exact (disambigSeq_nodup ((List.range n).map raws) []).1

/-- Witness for C3 (amended): two equal raw draws `aa` under
`max_length = 10` are disambiguated to `aa`, `aa_1` and stay pairwise
distinct. -/
theorem c3_amended_unique_strings_witness :
    (generate_strings 2 [("unique", PyParam.b true), ("max_length", PyParam.i 10)] "c"
      (fun _ => "aa") []).Nodup :=
  (c3_amended_unique_strings 2 10 (fun _ => "aa") "c").2 (by decide)

/-- C3 counterexample: with `unique` set and `max_length = 2`, two identical
raw draws `aaa` yield `["aa", "aa"]` — the length bound holds but the values
are not pairwise distinct, because the truncation to `max_length` is applied
after the `_1` suffix disambiguation and merges the two values again. -/
theorem c3_counterexample :
    generate_strings 2 [("unique", PyParam.b true), ("max_length", PyParam.i 2)] "c"
      (fun _ => "aaa") [] = [some "aa", some "aa"] ∧
    ¬ (generate_strings 2 [("unique", PyParam.b true), ("max_length", PyParam.i 2)] "c"
      (fun _ => "aaa") []).Nodup := by
  refine ⟨by decide, by decide⟩

end GenSQL
